import Mathlib

/-!
# TicTacToe (XO) — shallow embedding of `src/XO/src/TicTacToe.jsx`

The React component `XOGame` keeps its state in `useState` hooks.  The
embedding makes that state an explicit record (`State`) and every handler a
pure function from the state (and, where the handler draws random numbers,
from the values drawn) to the next state.

Modelling conventions

* A JavaScript cell value is `null`, `'X'` or `'O'`; it is a `Cell`, that is
  an `Option Player`, with `none` for `null`.  A cell is truthy exactly when
  it is `some _`.
* A board is a list of rows.  A read `board[i][j]` is `cellAt board i j`.  A
  read outside the board, which yields `undefined` in JavaScript, yields
  `none`: like `null` it is falsy and it is different from `'X'` and `'O'`.
* `Math.random()` is a parameter of the function that calls it, a rational
  number; `Math.floor(Math.random() * n)` is computed exactly.
-/

namespace XO

/-! ## Data model -/

/-- The two symbols `'X'` and `'O'`. -/
inductive Player where
  | X
  | O
  deriving DecidableEq, Repr

/-- A cell: `null` (`none`), `'X'` or `'O'`. -/
abbrev Cell := Option Player

/-- A board: the array of its rows. -/
abbrev Board := List (List Cell)

/-- The values `'human'` and `'ai'` of `playerX` and `playerO`. -/
inductive Controller where
  | human
  | ai
  deriving DecidableEq, Repr

/-- The values `'easy'`, `'medium'` and `'hard'` of `aiDifficulty`. -/
inductive Difficulty where
  | easy
  | medium
  | hard
  deriving DecidableEq, Repr

/-- The read `board[i][j]`. -/
def cellAt (board : Board) (i j : Nat) : Cell :=
  (board.getD i []).getD j none

/-- The callback form `arr.every((x, idx) => f(x, idx))`, indices counted
from `start`. -/
def everyIdxFrom {α : Type} (f : α → Nat → Bool) : Nat → List α → Bool
  | _, [] => true
  | start, x :: xs => f x start && everyIdxFrom f (start + 1) xs

/-- The callback form `arr.map((x, idx) => f(x, idx))`, indices counted from
`start`. -/
def mapIdxFrom {α β : Type} (f : α → Nat → β) : Nat → List α → List β
  | _, [] => []
  | start, x :: xs => f x start :: mapIdxFrom f (start + 1) xs

/-! ## `calculateWinner` (lines 58–76) -/

/-- The body of the first loop of `calculateWinner` at one `row`:
`if (board[row][0] && board[row].every(cell => cell === board[row][0]))
return board[row][0]`. -/
def rowWinner (board : Board) (row : Nat) : Cell :=
  if (cellAt board row 0).isSome
      && (board.getD row []).all (fun cell => cell == cellAt board row 0)
  then cellAt board row 0 else none

/-- The body of the second loop of `calculateWinner` at one `col`:
`if (board[0][col] && board.every(row => row[col] === board[0][col]))
return board[0][col]`. -/
def colWinner (board : Board) (col : Nat) : Cell :=
  if (cellAt board 0 col).isSome
      && board.all (fun row => row.getD col none == cellAt board 0 col)
  then cellAt board 0 col else none

/-- The main diagonal test:
`if (board[0][0] && board.every((row, idx) => row[idx] === board[0][0]))
return board[0][0]`. -/
def diagWinner (board : Board) : Cell :=
  if (cellAt board 0 0).isSome
      && everyIdxFrom (fun row idx => row.getD idx none == cellAt board 0 0) 0 board
  then cellAt board 0 0 else none

/-- The read `row[size - 1 - idx]`; the index is negative, and the read
`undefined`, when `size - 1 < idx`. -/
def antiRead (size : Nat) (row : List Cell) (idx : Nat) : Cell :=
  if idx + 1 ≤ size then row.getD (size - 1 - idx) none else none

/-- The anti-diagonal test:
`if (board[0][size - 1] && board.every((row, idx) =>
row[size - 1 - idx] === board[0][size - 1])) return board[0][size - 1]`. -/
def antiWinner (size : Nat) (board : Board) : Cell :=
  if (cellAt board 0 (size - 1)).isSome
      && everyIdxFrom (fun row idx => antiRead size row idx == cellAt board 0 (size - 1)) 0 board
  then cellAt board 0 (size - 1) else none

/-- The function `calculateWinner(board)`; `size` is the component's state
variable.  Each `for` loop returns at the first index whose test succeeds. -/
def calculateWinner (size : Nat) (board : Board) : Cell :=
  match (List.range size).findSome? (rowWinner board) with
  | some w => some w
  | none =>
    match (List.range size).findSome? (colWinner board) with
    | some w => some w
    | none =>
      match diagWinner board with
      | some w => some w
      | none => antiWinner size board

/-! ## The winning lines, as the specification words them -/

/-- A board of side `n`: `n` rows of `n` cells. -/
def WellFormed (n : Nat) (board : Board) : Prop :=
  board.length = n ∧ ∀ row ∈ board, row.length = n

instance (n : Nat) (board : Board) : Decidable (WellFormed n board) := by
  unfold WellFormed; infer_instance

/-- The coordinates of the lines of a board of side `n`, in the scan order of
the specification: row `0..n-1`, column `0..n-1`, main diagonal,
anti-diagonal. -/
def lineCoords (n : Nat) : List (List (Nat × Nat)) :=
  (List.range n).map (fun r => (List.range n).map (fun c => (r, c)))
    ++ (List.range n).map (fun c => (List.range n).map (fun r => (r, c)))
    ++ [(List.range n).map (fun i => (i, i)),
        (List.range n).map (fun i => (i, n - 1 - i))]

/-- A line, given by its coordinates, consists of cells of `p` only. -/
def FilledBy (board : Board) (line : List (Nat × Nat)) (p : Player) : Prop :=
  ∀ ij ∈ line, cellAt board ij.1 ij.2 = some p

instance (board : Board) (line : List (Nat × Nat)) (p : Player) :
    Decidable (FilledBy board line p) := by
  unfold FilledBy; infer_instance

/-- The symbol that fills a line, if one does: the line's first cell, when
it is not Empty and every cell of the line equals it. -/
def lineOwner (board : Board) (line : List (Nat × Nat)) : Cell :=
  match line with
  | [] => none
  | ij :: rest =>
    if (cellAt board ij.1 ij.2).isSome
        && rest.all (fun kl => cellAt board kl.1 kl.2 == cellAt board ij.1 ij.2)
    then cellAt board ij.1 ij.2 else none

/-- The winner as the specification states it: the owner of the first full
line in scan order. -/
def specWinner (n : Nat) (board : Board) : Cell :=
  (lineCoords n).findSome? (lineOwner board)

/-! ## The component state -/

/-- A value produced by `JSON.parse`. -/
inductive Json where
  | null
  | bool (b : Bool)
  | num (q : ℚ)
  | str (s : String)
  | arr (items : List Json)
  | obj (fields : List (String × Json))

/-- The state of `XOGame`: one field for each `useState` hook that the
handlers below read or write.  `history` holds whatever `JSON.parse` returned,
so it is a `Json` value. -/
structure State where
  size : Nat
  board : Board
  isXNext : Bool
  winner : Cell
  isDraw : Bool
  history : Json
  isReplaying : Bool
  replayIndex : Nat
  playerX : Controller
  playerO : Controller
  aiDifficulty : Difficulty

/-- The expression `isXNext ? 'X' : 'O'`. -/
def State.player (s : State) : Player := if s.isXNext then Player.X else Player.O

/-- The expression `isXNext ? 'O' : 'X'`. -/
def State.opponent (s : State) : Player := if s.isXNext then Player.O else Player.X

/-- The handler `resetGame` (lines 304–309). -/
def resetGame (s : State) : State :=
  { s with
    board := List.replicate s.size (List.replicate s.size none)
    isXNext := true
    winner := none
    isDraw := false }

/-- The board built by `makeMove`:
`board.map((r, i) => i === row ? r.map((cell, j) => j === col ? sym : cell) : r)`. -/
def moveBoard (board : Board) (row col : Nat) (sym : Player) : Board :=
  mapIdxFrom
    (fun r i =>
      if i = row then mapIdxFrom (fun cell j => if j = col then some sym else cell) 0 r else r)
    0 board

/-- The handler `makeMove(row, col)` (lines 86–98). -/
def makeMove (s : State) (row col : Nat) : State :=
  let newBoard := moveBoard s.board row col s.player
  let currentWinner := calculateWinner s.size newBoard
  { s with
    board := newBoard
    isXNext := !s.isXNext
    winner := if currentWinner.isSome then currentWinner else s.winner }

/-- The handler `handleClick(row, col)` (lines 78–84). -/
def handleClick (s : State) (row col : Nat) : State :=
  if s.isReplaying || (cellAt s.board row col).isSome || s.winner.isSome || s.isDraw then s
  else if (s.isXNext && s.playerX == Controller.ai)
      || (!s.isXNext && s.playerO == Controller.ai) then s
  else makeMove s row col

/-- The test of the draw effect (line 40):
`!winner && board.every(row => row.every(cell => cell !== null))`. -/
def drawRule (winner : Cell) (board : Board) : Bool :=
  !winner.isSome && board.all (fun row => row.all (fun cell => cell != none))

/-- The draw effect (lines 39–43), run after `board` or `winner` changes. -/
def drawEffect (s : State) : State :=
  if drawRule s.winner s.board then { s with isDraw := true } else s

/-! ## The AI (lines 100–200) -/

/-- A chosen move: the pair `row`, `col`, each a number or `undefined`. -/
abbrev Move := Option Nat × Option Nat

/-- The array `emptyCells` that the two loops of `findRandomMove` build. -/
def emptyCells (size : Nat) (board : Board) : List (Nat × Nat) :=
  (List.range size).flatMap fun i =>
    (List.range size).filterMap fun j =>
      if (cellAt board i j).isSome then none else some (i, j)

/-- The function `findRandomMove` (lines 127–144); `rnd` is the value of
`Math.random()`.  The result is `none` when `emptyCells[randomIndex]` is
`undefined`, on which the caller's destructuring throws. -/
def findRandomMove (size : Nat) (board : Board) (rnd : ℚ) : Option Move :=
  let cells := emptyCells size board
  if cells.length > 0 then
    let randomIndex : Int := Int.floor (rnd * (cells.length : ℚ))
    if 0 ≤ randomIndex then
      (cells.get? randomIndex.toNat).map fun ij => (some ij.1, some ij.2)
    else none
  else some (none, none)

/-- The assignment `newBoard[i][j] = v` on the deep copy
`JSON.parse(JSON.stringify(board))` of a board. -/
def setCell (board : Board) (i j : Nat) (v : Cell) : Board :=
  board.set i ((board.getD i []).set j v)

/-- The two nested loops of `findBestMove` (lines 159–170 and 172–183): the
first cell `(i, j)` in row-major order that is falsy and for which
`calculateWinner(newBoard) === sym` after `newBoard[i][j] = sym`. -/
def firstWinningCell (size : Nat) (board : Board) (sym : Player) : Option (Nat × Nat) :=
  (List.range size).findSome? fun i =>
    (List.range size).findSome? fun j =>
      if !(cellAt board i j).isSome
          && calculateWinner size (setCell board i j (some sym)) == some sym
      then some (i, j) else none

/-- The test of the loops of `findBestMove` at the cell `(i, j)`: the cell is
falsy and `calculateWinner` returns `sym` once `sym` is written there.  This
is the "immediate win" of the specification (§4.3, step 2). -/
def ImmediateWin (size : Nat) (board : Board) (sym : Player) (i j : Nat) : Prop :=
  cellAt board i j = none ∧ calculateWinner size (setCell board i j (some sym)) = some sym

instance (size : Nat) (board : Board) (sym : Player) (i j : Nat) :
    Decidable (ImmediateWin size board sym i j) := by
  unfold ImmediateWin; infer_instance

/-- The cell `(i, j)` is Empty and writing `sym` there makes some line of the
board of side `n` consist of cells of `sym` only. -/
def CompletesLine (n : Nat) (board : Board) (sym : Player) (i j : Nat) : Prop :=
  cellAt board i j = none ∧
    ∃ line ∈ lineCoords n, FilledBy (setCell board i j (some sym)) line sym

instance (n : Nat) (board : Board) (sym : Player) (i j : Nat) :
    Decidable (CompletesLine n board sym i j) := by
  unfold CompletesLine; infer_instance

/-- The cell `(i', j')` comes before `(i, j)` in row-major order. -/
def RowMajorBefore (i' j' i j : Nat) : Prop := i' < i ∨ (i' = i ∧ j' < j)

instance (i' j' i j : Nat) : Decidable (RowMajorBefore i' j' i j) := by
  unfold RowMajorBefore; infer_instance

/-- The body of `if (size === 3)` (lines 186–195): the centre if it is falsy,
else the first falsy corner; `none` when control falls through. -/
def centreOrCorner (board : Board) : Option (Nat × Nat) :=
  if !(cellAt board 1 1).isSome then some (1, 1)
  else [(0, 0), (0, 2), (2, 0), (2, 2)].find? fun ij => !(cellAt board ij.1 ij.2).isSome

/-- The function `findBestMove` (lines 146–200); `rnd` is the value of
`Math.random()` drawn by `findRandomMove` on the last line. -/
def findBestMove (s : State) (rnd : ℚ) : Option Move :=
  if s.board.all (fun row => row.all (fun cell => cell == none)) then
    some (some (s.size / 2), some (s.size / 2))
  else
    match firstWinningCell s.size s.board s.player with
    | some ij => some (some ij.1, some ij.2)
    | none =>
      match firstWinningCell s.size s.board s.opponent with
      | some ij => some (some ij.1, some ij.2)
      | none =>
        match (if s.size = 3 then centreOrCorner s.board else none) with
        | some ij => some (some ij.1, some ij.2)
        | none => findRandomMove s.size s.board rnd

/-- The `switch` of `makeAiMove` (lines 103–120): the pair `row`, `col` it
computes.  `coin` is the value of `Math.random()` on line 113, `rnd` the one
drawn inside `findRandomMove`. -/
def chooseAiMove (s : State) (coin rnd : ℚ) : Option Move :=
  match s.aiDifficulty with
  | Difficulty.easy => findRandomMove s.size s.board rnd
  | Difficulty.hard => findBestMove s rnd
  | Difficulty.medium =>
    if coin < 1 / 2 then findRandomMove s.size s.board rnd else findBestMove s rnd

/-- The function `makeAiMove` (lines 100–125): `makeMove` is called only when
both `row` and `col` are defined. -/
def makeAiMove (s : State) (coin rnd : ℚ) : Option State :=
  (chooseAiMove s coin rnd).map fun mv =>
    match mv with
    | (some row, some col) => makeMove s row col
    | _ => s

/-- What a chosen move must be on a board of side `n`: an in-bounds Empty
cell, or "no move" (`row` and `col` undefined) on a board without an Empty
cell. -/
def MoveOk (n : Nat) (board : Board) (mv : Move) : Prop :=
  (∃ i j, mv = (some i, some j) ∧ i < n ∧ j < n ∧ cellAt board i j = none) ∨
  (mv = (none, none) ∧ ∀ i j, i < n → j < n → cellAt board i j ≠ none)

/-! ## History import (lines 223–240) -/

/-- The `onload` handler of `handleFileUpload`.  Its argument is the outcome
of `JSON.parse(reader.result)`: the parsed value, or the message of the error
thrown.  The second component is the text passed to `alert`, if any. -/
def handleFileUploadOnload (s : State) (parsed : Except String Json) : State × Option String :=
  match parsed with
  | Except.ok loadedHistory =>
    (resetGame { s with history := loadedHistory, replayIndex := 0 }, none)
  | Except.error message => (s, some ("ไม่สามารถโหลดไฟล์ได้: " ++ message))

/-- A cell of a stored board, as the specification (§6) words it: `"X"`,
`"O"` or `null`. -/
def isCellJson : Json → Bool
  | Json.null => true
  | Json.str v => v == "X" || v == "O"
  | _ => false

/-- One of the strings of `options`. -/
def isOneOf (options : List String) : Option Json → Bool
  | some (Json.str v) => options.contains v
  | _ => false

/-- A well-formed HistorySnapshot, as the specification (§6) words it: an
object with the fields `board` (2D array of `"X"|"O"|null`), `winner`
(`"X"|"O"|null`), `isXNext` (bool), `timestamp` (string), `gameMode` (one of
the four mode strings), `size` (integer) and `aiDifficulty` (one of `easy`,
`medium`, `hard`). -/
def isHistorySnapshot : Json → Bool
  | Json.obj fields =>
    (match fields.lookup "board" with
      | some (Json.arr rows) =>
        rows.all fun row =>
          match row with
          | Json.arr cells => cells.all isCellJson
          | _ => false
      | _ => false)
    && (match fields.lookup "winner" with
      | some w => isCellJson w
      | none => false)
    && (match fields.lookup "isXNext" with
      | some (Json.bool _) => true
      | _ => false)
    && (match fields.lookup "timestamp" with
      | some (Json.str _) => true
      | _ => false)
    && isOneOf ["human-vs-human", "human-vs-ai", "ai-vs-human", "ai-vs-ai"]
        (fields.lookup "gameMode")
    && (match fields.lookup "size" with
      | some (Json.num q) => q.den == 1
      | _ => false)
    && isOneOf ["easy", "medium", "hard"] (fields.lookup "aiDifficulty")
  | _ => false

/-- A well-formed HistoryLog, as the specification words it: a list of
well-formed HistorySnapshot. -/
def isHistoryLog : Json → Bool
  | Json.arr items => items.all isHistorySnapshot
  | _ => false

/-- The controller of the player to move, `isXNext ? playerX : playerO`
(line 47). -/
def State.currentPlayer (s : State) : Controller := if s.isXNext then s.playerX else s.playerO

/-- Successive calls `makeMove(row, col)`, one for each cell of `moves`. -/
def playMoves (s : State) (moves : List (Nat × Nat)) : State :=
  moves.foldl (fun st m => makeMove st m.1 m.2) s

/-- A well-formed snapshot, used as the content of an existing log. -/
def sampleSnapshot : Json :=
  Json.obj
    [("board", Json.arr
        [Json.arr [Json.str "X", Json.null, Json.null],
         Json.arr [Json.null, Json.null, Json.null],
         Json.arr [Json.null, Json.null, Json.null]]),
     ("winner", Json.null),
     ("isXNext", Json.bool false),
     ("timestamp", Json.str "2024-01-01T00:00:00.000Z"),
     ("gameMode", Json.str "human-vs-human"),
     ("size", Json.num 3),
     ("aiDifficulty", Json.str "medium")]

/-- The snapshot of the specification's import scenario: an entry without the
`board` field. -/
def snapshotWithoutBoard : Json :=
  Json.obj
    [("winner", Json.null),
     ("isXNext", Json.bool false),
     ("timestamp", Json.str "2024-01-01T00:00:00.000Z"),
     ("gameMode", Json.str "human-vs-human"),
     ("size", Json.num 3),
     ("aiDifficulty", Json.str "medium")]

/-- A state right after `resetGame` on a board of side 3, all controllers
human. -/
def initialState : State :=
  { size := 3
    board := List.replicate 3 (List.replicate 3 none)
    isXNext := true
    winner := none
    isDraw := false
    history := Json.arr []
    isReplaying := false
    replayIndex := 0
    playerX := Controller.human
    playerO := Controller.human
    aiDifficulty := Difficulty.medium }

/-! ## Auxiliary facts about lists -/

theorem forall_mem_iff_getD {α : Type} (l : List α) (d : α) (P : α → Prop) :
    (∀ x ∈ l, P x) ↔ ∀ k, k < l.length → P (l.getD k d) := by
  constructor
  · intro h k hk
    rw [List.getD_eq_getElem l d hk]
    exact h _ (List.getElem_mem hk)
  · intro h x hx
    obtain ⟨k, hk, rfl⟩ := List.getElem_of_mem hx
    have := h k hk
    rwa [List.getD_eq_getElem l d hk] at this

theorem everyIdxFrom_iff {α : Type} (f : α → Nat → Bool) (d : α) (l : List α) (start : Nat) :
    everyIdxFrom f start l = true ↔ ∀ k, k < l.length → f (l.getD k d) (start + k) = true := by
  induction l generalizing start with
  | nil => simp [everyIdxFrom]
  | cons x xs ih =>
    simp only [everyIdxFrom, Bool.and_eq_true, ih, List.length_cons]
    constructor
    · rintro ⟨h0, h⟩ k hk
      cases k with
      | zero => simpa using h0
      | succ k =>
        have := h k (by omega)
        simpa [Nat.add_assoc, Nat.add_comm 1 k] using this
    · intro h
      refine ⟨by simpa using h 0 (by omega), fun k hk => ?_⟩
      have := h (k + 1) (by omega)
      simpa [Nat.add_assoc, Nat.add_comm 1 k] using this

theorem WellFormed.row_length {n : Nat} {board : Board} (h : WellFormed n board) {r : Nat}
    (hr : r < n) : (board.getD r []).length = n := by
  have hr' : r < board.length := by rw [h.1]; exact hr
  rw [List.getD_eq_getElem board [] hr']
  exact h.2 _ (List.getElem_mem hr')

/-! ## The four tests of `calculateWinner`, cell by cell -/

theorem guarded_eq_some_iff (a : Cell) (b : Bool) (p : Player) :
    (if a.isSome && b then a else none) = some p ↔ a = some p ∧ b = true := by
  cases a <;> cases b <;> simp

theorem rowWinner_eq_some_iff {n : Nat} {board : Board} (h : WellFormed n board) (hn : 0 < n)
    {r : Nat} (hr : r < n) (p : Player) :
    rowWinner board r = some p ↔ ∀ c, c < n → cellAt board r c = some p := by
  have hlen := h.row_length hr
  unfold rowWinner
  rw [guarded_eq_some_iff]
  simp only [List.all_eq_true, beq_iff_eq]
  rw [forall_mem_iff_getD (board.getD r []) none, hlen]
  constructor
  · rintro ⟨h0, hall⟩ c hc
    have := hall c hc
    unfold cellAt at *
    rw [this]; exact h0
  · intro hall
    have h0 := hall 0 hn
    refine ⟨h0, fun k hk => ?_⟩
    have := hall k hk
    unfold cellAt at *
    rw [this, h0]

theorem colWinner_eq_some_iff {n : Nat} {board : Board} (h : WellFormed n board) (hn : 0 < n)
    {c : Nat} (p : Player) :
    colWinner board c = some p ↔ ∀ r, r < n → cellAt board r c = some p := by
  unfold colWinner
  rw [guarded_eq_some_iff]
  simp only [List.all_eq_true, beq_iff_eq]
  rw [forall_mem_iff_getD board [], h.1]
  constructor
  · rintro ⟨h0, hall⟩ r hr
    have := hall r hr
    unfold cellAt at *
    rw [this]; exact h0
  · intro hall
    have h0 := hall 0 hn
    refine ⟨h0, fun k hk => ?_⟩
    have := hall k hk
    unfold cellAt at *
    rw [this, h0]

theorem diagWinner_eq_some_iff {n : Nat} {board : Board} (h : WellFormed n board) (hn : 0 < n)
    (p : Player) :
    diagWinner board = some p ↔ ∀ i, i < n → cellAt board i i = some p := by
  unfold diagWinner
  rw [guarded_eq_some_iff]
  simp only [everyIdxFrom_iff _ ([] : List Cell), beq_iff_eq, h.1, Nat.zero_add]
  constructor
  · rintro ⟨h0, hall⟩ i hi
    have := hall i hi
    unfold cellAt at *
    rw [this]; exact h0
  · intro hall
    have h0 := hall 0 hn
    refine ⟨h0, fun k hk => ?_⟩
    have := hall k hk
    unfold cellAt at *
    rw [this, h0]

theorem antiWinner_eq_some_iff {n : Nat} {board : Board} (h : WellFormed n board) (hn : 0 < n)
    (p : Player) :
    antiWinner n board = some p ↔ ∀ i, i < n → cellAt board i (n - 1 - i) = some p := by
  unfold antiWinner
  rw [guarded_eq_some_iff]
  simp only [everyIdxFrom_iff _ ([] : List Cell), beq_iff_eq, h.1, Nat.zero_add]
  constructor
  · rintro ⟨h0, hall⟩ i hi
    have := hall i hi
    unfold antiRead at this
    rw [if_pos (by omega)] at this
    unfold cellAt at *
    rw [this]; exact h0
  · intro hall
    have h0 := hall 0 hn
    simp only [Nat.sub_zero] at h0
    refine ⟨h0, fun k hk => ?_⟩
    have := hall k hk
    unfold antiRead
    rw [if_pos (by omega)]
    unfold cellAt at *
    rw [this, h0]

theorem lineOwner_eq_some_iff (board : Board) (line : List (Nat × Nat)) (p : Player) :
    lineOwner board line = some p ↔ line ≠ [] ∧ FilledBy board line p := by
  cases line with
  | nil => simp [lineOwner]
  | cons ij rest =>
    unfold lineOwner FilledBy
    rw [guarded_eq_some_iff]
    simp only [List.all_eq_true, beq_iff_eq, ne_eq, reduceCtorEq,
      not_false_eq_true, true_and, List.mem_cons, forall_eq_or_imp]
    constructor
    · rintro ⟨h0, hall⟩
      exact ⟨h0, fun kl hkl => by rw [hall kl hkl]; exact h0⟩
    · rintro ⟨h0, hall⟩
      exact ⟨h0, fun kl hkl => by rw [hall kl hkl, h0]⟩

theorem filledBy_map_range (board : Board) (n : Nat) (f : Nat → Nat × Nat) (p : Player) :
    FilledBy board ((List.range n).map f) p ↔ ∀ k, k < n → cellAt board (f k).1 (f k).2 = some p := by
  simp [FilledBy]

theorem lineOwner_map_range_eq_some_iff (board : Board) {n : Nat} (hn : 0 < n)
    (f : Nat → Nat × Nat) (p : Player) :
    lineOwner board ((List.range n).map f) = some p
      ↔ ∀ k, k < n → cellAt board (f k).1 (f k).2 = some p := by
  rw [lineOwner_eq_some_iff, filledBy_map_range]
  constructor
  · exact fun h => h.2
  · intro h
    refine ⟨?_, h⟩
    intro hnil
    have := congrArg List.length hnil
    simp at this
    omega

theorem cell_ext {a b : Cell} (h : ∀ p : Player, a = some p ↔ b = some p) : a = b := by
  cases a with
  | none =>
    cases b with
    | none => rfl
    | some q => exact absurd ((h q).2 rfl) (by simp)
  | some p => exact ((h p).1 rfl).symm

theorem findSome?_range_congr {β : Type} (n : Nat) (f g : Nat → Option β)
    (h : ∀ k, k < n → f k = g k) :
    (List.range n).findSome? f = (List.range n).findSome? g := by
  have : ∀ l : List Nat, (∀ k ∈ l, f k = g k) → l.findSome? f = l.findSome? g := by
    intro l
    induction l with
    | nil => intro _; rfl
    | cons x xs ih =>
      intro hl
      simp only [List.findSome?_cons]
      rw [hl x (List.mem_cons_self _ _), ih (fun k hk => hl k (List.mem_cons_of_mem _ hk))]
  exact this _ (fun k hk => h k (List.mem_range.1 hk))

/-- The code's scan and the specification's scan agree on every board of
side `n`. -/
theorem calculateWinner_eq_specWinner {n : Nat} {board : Board} (h : WellFormed n board)
    (hn : 0 < n) : calculateWinner n board = specWinner n board := by
  have hrow : (List.range n).findSome? (rowWinner board)
      = (List.range n).findSome?
          (lineOwner board ∘ fun r => (List.range n).map (fun c => (r, c))) := by
    apply findSome?_range_congr
    intro r hr
    apply cell_ext
    intro p
    rw [rowWinner_eq_some_iff h hn hr, Function.comp_apply,
      lineOwner_map_range_eq_some_iff board hn]
  have hcol : (List.range n).findSome? (colWinner board)
      = (List.range n).findSome?
          (lineOwner board ∘ fun c => (List.range n).map (fun r => (r, c))) := by
    apply findSome?_range_congr
    intro c _
    apply cell_ext
    intro p
    rw [colWinner_eq_some_iff h hn, Function.comp_apply,
      lineOwner_map_range_eq_some_iff board hn]
  have hdiag : diagWinner board = lineOwner board ((List.range n).map (fun i => (i, i))) := by
    apply cell_ext
    intro p
    rw [diagWinner_eq_some_iff h hn, lineOwner_map_range_eq_some_iff board hn]
  have hanti : antiWinner n board
      = lineOwner board ((List.range n).map (fun i => (i, n - 1 - i))) := by
    apply cell_ext
    intro p
    rw [antiWinner_eq_some_iff h hn, lineOwner_map_range_eq_some_iff board hn]
  unfold calculateWinner specWinner lineCoords
  rw [List.findSome?_append, List.findSome?_append, List.findSome?_map, List.findSome?_map,
    hrow, hcol, hdiag, hanti]
  simp only [List.findSome?_cons, List.findSome?_nil]
  cases (List.range n).findSome?
      (lineOwner board ∘ fun r => (List.range n).map (fun c => (r, c))) <;>
    cases (List.range n).findSome?
      (lineOwner board ∘ fun c => (List.range n).map (fun r => (r, c))) <;>
    cases lineOwner board ((List.range n).map (fun i => (i, i))) <;>
    cases lineOwner board ((List.range n).map (fun i => (i, n - 1 - i))) <;> rfl

theorem mem_lineCoords_ne_nil {n : Nat} (hn : 0 < n) {line : List (Nat × Nat)}
    (h : line ∈ lineCoords n) : line ≠ [] := by
  have key : ∀ f : Nat → Nat × Nat, (List.range n).map f ≠ [] := by
    intro f hnil
    have := congrArg List.length hnil
    simp at this
    omega
  unfold lineCoords at h
  simp only [List.mem_append, List.mem_map, List.mem_range, List.mem_cons, List.mem_singleton,
    List.not_mem_nil, or_false] at h
  rcases h with (⟨r, _, rfl⟩ | ⟨c, _, rfl⟩) | rfl | rfl <;> exact key _

/-- On a board of side `n`, `calculateWinner` returns `p` exactly when the
first full line in scan order is a line of `p`. -/
theorem calculateWinner_eq_some_iff {n : Nat} {board : Board} (h : WellFormed n board)
    (hn : 0 < n) (p : Player) :
    calculateWinner n board = some p ↔
      ∃ pre line post, lineCoords n = pre ++ line :: post ∧ FilledBy board line p ∧
        ∀ l ∈ pre, ∀ q, ¬ FilledBy board l q := by
  rw [calculateWinner_eq_specWinner h hn, specWinner, List.findSome?_eq_some_iff]
  constructor
  · rintro ⟨pre, line, post, heq, hown, hpre⟩
    refine ⟨pre, line, post, heq, ((lineOwner_eq_some_iff _ _ _).1 hown).2, ?_⟩
    intro l hl q hq
    have hmem : l ∈ lineCoords n := by rw [heq]; exact List.mem_append_left _ hl
    have := (lineOwner_eq_some_iff board l q).2 ⟨mem_lineCoords_ne_nil hn hmem, hq⟩
    rw [hpre l hl] at this
    cases this
  · rintro ⟨pre, line, post, heq, hfill, hpre⟩
    refine ⟨pre, line, post, heq, ?_, ?_⟩
    · have hmem : line ∈ lineCoords n := by rw [heq]; simp
      exact (lineOwner_eq_some_iff _ _ _).2 ⟨mem_lineCoords_ne_nil hn hmem, hfill⟩
    · intro l hl
      cases hlo : lineOwner board l with
      | none => rfl
      | some q => exact absurd ((lineOwner_eq_some_iff _ _ _).1 hlo).2 (hpre l hl q)

/-- On a board of side `n`, `calculateWinner` returns `null` exactly when no
line is full. -/
theorem calculateWinner_eq_none_iff {n : Nat} {board : Board} (h : WellFormed n board)
    (hn : 0 < n) :
    calculateWinner n board = none ↔ ∀ line ∈ lineCoords n, ∀ p, ¬ FilledBy board line p := by
  rw [calculateWinner_eq_specWinner h hn, specWinner, List.findSome?_eq_none_iff]
  constructor
  · intro hall line hl p hp
    have := (lineOwner_eq_some_iff board line p).2 ⟨mem_lineCoords_ne_nil hn hl, hp⟩
    rw [hall line hl] at this
    cases this
  · intro hall line hl
    cases hlo : lineOwner board line with
    | none => rfl
    | some q => exact absurd ((lineOwner_eq_some_iff _ _ _).1 hlo).2 (hall line hl q)

/-! ## Writing one cell -/

theorem mapIdxFrom_getElem? {α β : Type} (f : α → Nat → β) (l : List α) (start k : Nat) :
    (mapIdxFrom f start l)[k]? = (l[k]?).map (fun x => f x (start + k)) := by
  induction l generalizing start k with
  | nil => simp [mapIdxFrom]
  | cons x xs ih =>
    cases k with
    | zero => simp [mapIdxFrom]
    | succ k =>
      simp only [mapIdxFrom, List.getElem?_cons_succ, ih]
      congr 1
      funext y
      congr 1
      omega

theorem mapIdxFrom_update {α : Type} (l : List α) (c : Nat) (v : α) :
    mapIdxFrom (fun x j => if j = c then v else x) 0 l = l.set c v := by
  apply List.ext_getElem?
  intro k
  rw [mapIdxFrom_getElem?, List.getElem?_set']
  by_cases h : c = k
  · subst h
    cases l[c]? <;> simp
  · have h' : ¬ k = c := fun e => h e.symm
    cases l[k]? <;> simp [h, h']

/-- The board that `makeMove` builds with `map` is the board that the
assignment `newBoard[row][col] = sym` builds. -/
theorem moveBoard_eq_setCell (board : Board) (row col : Nat) (sym : Player) :
    moveBoard board row col sym = setCell board row col (some sym) := by
  unfold moveBoard setCell
  apply List.ext_getElem?
  intro k
  rw [mapIdxFrom_getElem?, List.getElem?_set']
  by_cases h : row = k
  · subst h
    cases hrow : board[row]? with
    | none => simp
    | some r => simp [mapIdxFrom_update, hrow]
  · have h' : ¬ k = row := fun e => h e.symm
    cases board[k]? <;> simp [h, h']

theorem WellFormed.setCell {n : Nat} {board : Board} (h : WellFormed n board) (i j : Nat)
    (v : Cell) : WellFormed n (setCell board i j v) := by
  refine ⟨by simp [XO.setCell, h.1], ?_⟩
  intro row hrow
  rcases List.mem_or_eq_of_mem_set hrow with hmem | rfl
  · exact h.2 row hmem
  · rw [List.length_set]
    by_cases hi : i < n
    · exact h.row_length hi
    · have hlen : board.length ≤ i := by rw [h.1]; omega
      unfold XO.setCell at hrow
      rw [List.set_eq_of_length_le hlen] at hrow
      have := h.2 _ hrow
      rwa [List.length_set] at this

theorem cellAt_setCell {n : Nat} {board : Board} (h : WellFormed n board) {i j : Nat}
    (hi : i < n) (hj : j < n) (v : Cell) (k l : Nat) :
    cellAt (setCell board i j v) k l = if k = i ∧ l = j then v else cellAt board k l := by
  have hi' : i < board.length := by rw [h.1]; exact hi
  have hrow := h.row_length hi
  unfold cellAt setCell
  simp only [List.getD_eq_getElem?_getD, List.getElem?_set]
  by_cases hk : i = k
  · subst hk
    simp only [hi', if_true, Option.getD_some, true_and]
    by_cases hl : j = l
    · subst hl
      have : j < (board[i]?.getD []).length := by
        have hrow' := hrow
        simp only [List.getD_eq_getElem?_getD] at hrow'
        omega
      simp [this]
    · have hl' : ¬ l = j := fun e => hl e.symm
      simp [hl, hl']
  · have hk' : ¬ k = i := fun e => hk e.symm
    simp [hk, hk']

/-! ## Moves on a board without a full line -/

theorem filledBy_of_filledBy_setCell {n : Nat} {board : Board} (h : WellFormed n board)
    {i j : Nat} (hi : i < n) (hj : j < n) {p q : Player} (hpq : q ≠ p)
    {line : List (Nat × Nat)} (hq : FilledBy (setCell board i j (some p)) line q) :
    FilledBy board line q := by
  intro kl hkl
  have := hq kl hkl
  rw [cellAt_setCell h hi hj] at this
  split at this
  · exact absurd (Option.some.inj this).symm hpq
  · exact this

/-- On a board of side `n` without a full line, writing `p` into a cell makes
`calculateWinner` return `p` exactly when some line of the new board is a
line of `p`. -/
theorem calculateWinner_setCell_iff {n : Nat} {board : Board} (h : WellFormed n board)
    (hn : 0 < n) (hprog : calculateWinner n board = none) {i j : Nat} (hi : i < n) (hj : j < n)
    (p : Player) :
    calculateWinner n (setCell board i j (some p)) = some p
      ↔ ∃ line ∈ lineCoords n, FilledBy (setCell board i j (some p)) line p := by
  have hwf' := h.setCell i j (some p)
  constructor
  · intro hw
    obtain ⟨pre, line, post, heq, hfill, _⟩ := (calculateWinner_eq_some_iff hwf' hn p).1 hw
    exact ⟨line, by rw [heq]; simp, hfill⟩
  · rintro ⟨line, hmem, hfill⟩
    cases hw : calculateWinner n (setCell board i j (some p)) with
    | none => exact absurd hfill ((calculateWinner_eq_none_iff hwf' hn).1 hw line hmem p)
    | some q =>
      by_cases hpq : q = p
      · rw [hpq]
      · exfalso
        obtain ⟨pre, l, post, heq, hq, _⟩ := (calculateWinner_eq_some_iff hwf' hn q).1 hw
        have hl : l ∈ lineCoords n := by rw [heq]; simp
        exact (calculateWinner_eq_none_iff h hn).1 hprog l hl q
          (filledBy_of_filledBy_setCell h hi hj hpq hq)

theorem makeMove_board (s : State) (row col : Nat) :
    (makeMove s row col).board = setCell s.board row col (some s.player) := by
  simp [makeMove, moveBoard_eq_setCell]

theorem makeMove_winner (s : State) (row col : Nat) :
    (makeMove s row col).winner
      = if (calculateWinner s.size (makeMove s row col).board).isSome
        then calculateWinner s.size (makeMove s row col).board else s.winner := by
  simp [makeMove]

/-- After `makeMove` from a state without a winner, the `winner` variable is
`calculateWinner` of the new board. -/
theorem makeMove_winner_of_none (s : State) (row col : Nat) (hw : s.winner = none) :
    (makeMove s row col).winner = calculateWinner s.size (makeMove s row col).board := by
  rw [makeMove_winner, hw]
  cases calculateWinner s.size (makeMove s row col).board <;> rfl

theorem drawRule_eq_true_iff {n : Nat} {board : Board} (h : WellFormed n board) (w : Cell) :
    drawRule w board = true
      ↔ w = none ∧ ∀ i j, i < n → j < n → cellAt board i j ≠ none := by
  unfold drawRule
  simp only [Bool.and_eq_true, Bool.not_eq_true', List.all_eq_true, bne_iff_ne, ne_eq]
  rw [forall_mem_iff_getD board [], h.1]
  constructor
  · rintro ⟨hw, hall⟩
    refine ⟨by cases w <;> simp_all, fun i j hi hj => ?_⟩
    have := hall i hi
    rw [forall_mem_iff_getD _ none, h.row_length hi] at this
    exact this j hj
  · rintro ⟨hw, hall⟩
    refine ⟨by rw [hw]; rfl, fun i hi => ?_⟩
    rw [forall_mem_iff_getD _ none, h.row_length hi]
    exact fun j hj => hall i j hi hj

/-! ## The cell scans of `findBestMove` -/

theorem findSome?_range_eq_none_iff {β : Type} (n : Nat) (f : Nat → Option β) :
    (List.range n).findSome? f = none ↔ ∀ k, k < n → f k = none := by
  simp [List.findSome?_eq_none_iff]

theorem findSome?_range_eq_some_iff {β : Type} (n : Nat) (f : Nat → Option β) (b : β) :
    (List.range n).findSome? f = some b
      ↔ ∃ k, k < n ∧ f k = some b ∧ ∀ k', k' < k → f k' = none := by
  induction n generalizing b with
  | zero => simp
  | succ n ih =>
    rw [List.range_succ, List.findSome?_append]
    cases hpre : (List.range n).findSome? f with
    | some c =>
      obtain ⟨k0, hk0, hf0, hb0⟩ := (ih c).1 hpre
      simp only [Option.or_some]
      constructor
      · intro hcb
        rw [← hcb]
        exact ⟨k0, by omega, hf0, hb0⟩
      · rintro ⟨k, _, hfk, hbk⟩
        rcases Nat.lt_trichotomy k k0 with hlt | heq | hgt
        · rw [hb0 k hlt] at hfk; cases hfk
        · rw [heq, hf0] at hfk; exact hfk
        · rw [hbk k0 hgt] at hf0; cases hf0
    | none =>
      have hnone := (findSome?_range_eq_none_iff n f).1 hpre
      simp only [Option.none_or, List.findSome?_cons, List.findSome?_nil]
      constructor
      · intro hfn
        refine ⟨n, by omega, ?_, hnone⟩
        cases hf : f n with
        | none => rw [hf] at hfn; cases hfn
        | some c => rw [hf] at hfn; exact hfn
      · rintro ⟨k, hk, hfk, _⟩
        have hkn : k = n := by
          by_contra hne
          have := hnone k (by omega)
          rw [this] at hfk; cases hfk
        rw [hkn] at hfk
        rw [hfk]

theorem firstWinningCell_eq_none_iff (n : Nat) (board : Board) (p : Player) :
    firstWinningCell n board p = none
      ↔ ∀ i j, i < n → j < n → ¬ ImmediateWin n board p i j := by
  unfold firstWinningCell ImmediateWin
  simp only [findSome?_range_eq_none_iff]
  constructor
  · intro h i j hi hj ⟨hc, hw⟩
    have := h i hi j hj
    simp [hc, hw] at this
  · intro h i hi j hj
    have := h i j hi hj
    cases hc : cellAt board i j with
    | some q => simp
    | none =>
      have hw : ¬ calculateWinner n (setCell board i j (some p)) = some p :=
        fun hw => this ⟨hc, hw⟩
      simp [hw]

theorem firstWinningCell_eq_some_iff (n : Nat) (board : Board) (p : Player) (i j : Nat) :
    firstWinningCell n board p = some (i, j)
      ↔ i < n ∧ j < n ∧ ImmediateWin n board p i j ∧
          ∀ i' j', i' < n → j' < n → RowMajorBefore i' j' i j →
            ¬ ImmediateWin n board p i' j' := by
  have test_iff : ∀ a b c d : Nat,
      (if (!(cellAt board a b).isSome
          && calculateWinner n (setCell board a b (some p)) == some p) = true
        then some (a, b) else none) = some (c, d)
      ↔ ImmediateWin n board p a b ∧ a = c ∧ b = d := by
    intro a b c d
    unfold ImmediateWin
    cases hc : cellAt board a b <;>
      by_cases hw : calculateWinner n (setCell board a b (some p)) = some p <;>
      simp [hw]
  have test_none : ∀ a b : Nat,
      (if (!(cellAt board a b).isSome
          && calculateWinner n (setCell board a b (some p)) == some p) = true
        then some (a, b) else none) = none
      ↔ ¬ ImmediateWin n board p a b := by
    intro a b
    unfold ImmediateWin
    cases hc : cellAt board a b <;>
      by_cases hw : calculateWinner n (setCell board a b (some p)) = some p <;>
      simp [hw]
  unfold firstWinningCell
  simp only [findSome?_range_eq_some_iff, findSome?_range_eq_none_iff, test_iff, test_none]
  constructor
  · rintro ⟨a, ha, ⟨b, hb, ⟨hwin, rfl, rfl⟩, hbefore⟩, hrows⟩
    refine ⟨ha, hb, hwin, ?_⟩
    intro i' j' hi' hj' hlt
    rcases hlt with hlt | ⟨rfl, hlt⟩
    · exact hrows i' hlt j' hj'
    · exact hbefore j' hlt
  · rintro ⟨hi, hj, hwin, hbefore⟩
    refine ⟨i, hi, ⟨j, hj, ⟨hwin, rfl, rfl⟩, ?_⟩, ?_⟩
    · intro j' hj'
      exact hbefore i j' hi (by omega) (Or.inr ⟨rfl, hj'⟩)
    · intro i' hi' j' hj'
      exact hbefore i' j' (by omega) hj' (Or.inl hi')

/-- When some cell passes the test of the scan, the scan returns a cell. -/
theorem firstWinningCell_isSome_of_exists (n : Nat) (board : Board) (p : Player)
    (h : ∃ i j, i < n ∧ j < n ∧ ImmediateWin n board p i j) :
    ∃ i j, firstWinningCell n board p = some (i, j) := by
  cases hf : firstWinningCell n board p with
  | none =>
    obtain ⟨i, j, hi, hj, hw⟩ := h
    exact absurd hw ((firstWinningCell_eq_none_iff n board p).1 hf i j hi hj)
  | some ij => exact ⟨ij.1, ij.2, rfl⟩

/-- On a board without a full line the test of the scan holds at a cell
exactly when writing there completes a line. -/
theorem immediateWin_iff_completesLine {n : Nat} {board : Board} (h : WellFormed n board)
    (hn : 0 < n) (hprog : calculateWinner n board = none) {i j : Nat} (hi : i < n) (hj : j < n)
    (p : Player) : ImmediateWin n board p i j ↔ CompletesLine n board p i j := by
  unfold ImmediateWin CompletesLine
  rw [calculateWinner_setCell_iff h hn hprog hi hj]

theorem allEmpty_iff {n : Nat} {board : Board} (h : WellFormed n board) :
    board.all (fun row => row.all (fun cell => cell == none)) = true
      ↔ ∀ i j, i < n → j < n → cellAt board i j = none := by
  simp only [List.all_eq_true, beq_iff_eq]
  rw [forall_mem_iff_getD board [], h.1]
  constructor
  · intro hall i j hi hj
    have := hall i hi
    rw [forall_mem_iff_getD _ none, h.row_length hi] at this
    exact this j hj
  · intro hall i hi
    rw [forall_mem_iff_getD _ none, h.row_length hi]
    exact fun j hj => hall i j hi hj

theorem lineCoords_two_cells {n : Nat} (hn : 2 ≤ n) {line : List (Nat × Nat)}
    (h : line ∈ lineCoords n) :
    ∃ a ∈ line, ∃ b ∈ line, a ≠ b ∧ a.1 < n ∧ a.2 < n ∧ b.1 < n ∧ b.2 < n := by
  have key : ∀ f : Nat → Nat × Nat, f 0 ≠ f 1 → (∀ k, k < n → (f k).1 < n ∧ (f k).2 < n) →
      ∃ a ∈ (List.range n).map f, ∃ b ∈ (List.range n).map f,
        a ≠ b ∧ a.1 < n ∧ a.2 < n ∧ b.1 < n ∧ b.2 < n := by
    intro f hf hb
    refine ⟨f 0, List.mem_map.2 ⟨0, List.mem_range.2 (by omega), rfl⟩,
      f 1, List.mem_map.2 ⟨1, List.mem_range.2 (by omega), rfl⟩, hf,
      (hb 0 (by omega)).1, (hb 0 (by omega)).2, (hb 1 (by omega)).1, (hb 1 (by omega)).2⟩
  unfold lineCoords at h
  simp only [List.mem_append, List.mem_map, List.mem_range, List.mem_cons, List.mem_singleton,
    List.not_mem_nil, or_false] at h
  rcases h with (⟨r, hr, rfl⟩ | ⟨c, hc, rfl⟩) | rfl | rfl
  · exact key _ (by simp) (fun k hk => ⟨hr, hk⟩)
  · exact key _ (by simp) (fun k hk => ⟨hk, hc⟩)
  · exact key _ (by simp) (fun k hk => ⟨hk, hk⟩)
  · exact key _ (by simp) (fun k hk => ⟨hk, by simp only; omega⟩)

/-- On an entirely Empty board of side at least 2 no single write completes a
line. -/
theorem not_completesLine_of_allEmpty {n : Nat} {board : Board} (h : WellFormed n board)
    (hn : 2 ≤ n) (hall : ∀ i j, i < n → j < n → cellAt board i j = none)
    {i j : Nat} (hi : i < n) (hj : j < n) (p : Player) : ¬ CompletesLine n board p i j := by
  rintro ⟨_, line, hmem, hfill⟩
  obtain ⟨a, ha, b, hb, hab, ha1, ha2, hb1, hb2⟩ := lineCoords_two_cells hn hmem
  have hA := hfill a ha
  have hB := hfill b hb
  rw [cellAt_setCell h hi hj] at hA hB
  by_cases hai : a.1 = i ∧ a.2 = j
  · have hbi : ¬ (b.1 = i ∧ b.2 = j) := by
      rintro ⟨h1, h2⟩
      exact hab (Prod.ext (hai.1.trans h1.symm) (hai.2.trans h2.symm))
    rw [if_neg hbi, hall b.1 b.2 hb1 hb2] at hB
    cases hB
  · rw [if_neg hai, hall a.1 a.2 ha1 ha2] at hA
    cases hA

theorem findBestMove_of_win (s : State) (rnd : ℚ) {i j : Nat}
    (hne : s.board.all (fun row => row.all (fun cell => cell == none)) ≠ true)
    (hwin : firstWinningCell s.size s.board s.player = some (i, j)) :
    findBestMove s rnd = some (some i, some j) := by
  unfold findBestMove
  rw [if_neg hne, hwin]

theorem findBestMove_of_block (s : State) (rnd : ℚ) {i j : Nat}
    (hne : s.board.all (fun row => row.all (fun cell => cell == none)) ≠ true)
    (hwin : firstWinningCell s.size s.board s.player = none)
    (hblock : firstWinningCell s.size s.board s.opponent = some (i, j)) :
    findBestMove s rnd = some (some i, some j) := by
  unfold findBestMove
  rw [if_neg hne, hwin, hblock]

theorem findBestMove_of_neither (s : State) (rnd : ℚ)
    (hne : s.board.all (fun row => row.all (fun cell => cell == none)) ≠ true)
    (hwin : firstWinningCell s.size s.board s.player = none)
    (hblock : firstWinningCell s.size s.board s.opponent = none) :
    findBestMove s rnd =
      match (if s.size = 3 then centreOrCorner s.board else none) with
      | some ij => some (some ij.1, some ij.2)
      | none => findRandomMove s.size s.board rnd := by
  unfold findBestMove
  rw [if_neg hne, hwin, hblock]

/-- On a board of side `n` without a full line, the scan for `p` returns the
first cell in row-major order at which `p` completes a line, when there is
one. -/
theorem firstWinningCell_first_completing {n : Nat} {board : Board} (h : WellFormed n board)
    (hn : 0 < n) (hprog : calculateWinner n board = none) (p : Player)
    (hex : ∃ i j, i < n ∧ j < n ∧ CompletesLine n board p i j) :
    ∃ i j, firstWinningCell n board p = some (i, j) ∧ i < n ∧ j < n ∧
      CompletesLine n board p i j ∧
      (∀ i' j', i' < n → j' < n → RowMajorBefore i' j' i j → ¬ CompletesLine n board p i' j') ∧
      calculateWinner n (setCell board i j (some p)) = some p := by
  obtain ⟨i, j, hf⟩ := firstWinningCell_isSome_of_exists n board p (by
    obtain ⟨i, j, hi, hj, hc⟩ := hex
    exact ⟨i, j, hi, hj, (immediateWin_iff_completesLine h hn hprog hi hj p).2 hc⟩)
  obtain ⟨hi, hj, hwin, hbefore⟩ := (firstWinningCell_eq_some_iff n board p i j).1 hf
  refine ⟨i, j, hf, hi, hj, (immediateWin_iff_completesLine h hn hprog hi hj p).1 hwin, ?_,
    hwin.2⟩
  intro i' j' hi' hj' hlt hc
  exact hbefore i' j' hi' hj' hlt ((immediateWin_iff_completesLine h hn hprog hi' hj' p).2 hc)

theorem not_allEmpty_of_completesLine {n : Nat} {board : Board} (h : WellFormed n board)
    (hn : 2 ≤ n) {p : Player} (hex : ∃ i j, i < n ∧ j < n ∧ CompletesLine n board p i j) :
    board.all (fun row => row.all (fun cell => cell == none)) ≠ true := by
  intro hall
  obtain ⟨i, j, hi, hj, hc⟩ := hex
  exact not_completesLine_of_allEmpty h hn ((allEmpty_iff h).1 hall) hi hj p hc

/-! ## `findRandomMove` and the choice of the AI -/

theorem mem_emptyCells (n : Nat) (board : Board) (i j : Nat) :
    (i, j) ∈ emptyCells n board ↔ i < n ∧ j < n ∧ cellAt board i j = none := by
  unfold emptyCells
  simp only [List.mem_flatMap, List.mem_range, List.mem_filterMap]
  constructor
  · rintro ⟨a, ha, b, hb, hab⟩
    cases hc : cellAt board a b with
    | none =>
      simp [hc] at hab
      obtain ⟨rfl, rfl⟩ := hab
      exact ⟨ha, hb, hc⟩
    | some q => simp [hc] at hab
  · rintro ⟨hi, hj, hc⟩
    exact ⟨i, hi, j, hj, by simp [hc]⟩

theorem findRandomMove_ok (n : Nat) (board : Board) (rnd : ℚ) (h0 : 0 ≤ rnd) (h1 : rnd < 1) :
    ∃ mv, findRandomMove n board rnd = some mv ∧ MoveOk n board mv := by
  unfold findRandomMove
  by_cases hlen : (emptyCells n board).length > 0
  · simp only [hlen, if_true]
    have hpos : (0 : ℚ) < ((emptyCells n board).length : ℚ) := by exact_mod_cast hlen
    have hnonneg : 0 ≤ Int.floor (rnd * ((emptyCells n board).length : ℚ)) :=
      Int.floor_nonneg.2 (mul_nonneg h0 (le_of_lt hpos))
    have hlt : Int.floor (rnd * ((emptyCells n board).length : ℚ))
        < ((emptyCells n board).length : Int) := by
      rw [Int.floor_lt]
      have : rnd * ((emptyCells n board).length : ℚ) < 1 * ((emptyCells n board).length : ℚ) :=
        mul_lt_mul_of_pos_right h1 hpos
      simpa using this
    have hidx : (Int.floor (rnd * ((emptyCells n board).length : ℚ))).toNat
        < (emptyCells n board).length := by omega
    rw [if_pos hnonneg, List.get?_eq_getElem?, List.getElem?_eq_getElem hidx]
    refine ⟨_, rfl, Or.inl ⟨_, _, rfl, ?_⟩⟩
    exact (mem_emptyCells n board _ _).1 (List.getElem_mem hidx)
  · simp only [hlen, if_false]
    refine ⟨_, rfl, Or.inr ⟨rfl, ?_⟩⟩
    intro i j hi hj hc
    have hmem := (mem_emptyCells n board i j).2 ⟨hi, hj, hc⟩
    exact hlen (List.length_pos_of_mem hmem)

theorem centreOrCorner_eq (board : Board) :
    centreOrCorner board =
      if cellAt board 1 1 = none then some (1, 1)
      else if cellAt board 0 0 = none then some (0, 0)
      else if cellAt board 0 2 = none then some (0, 2)
      else if cellAt board 2 0 = none then some (2, 0)
      else if cellAt board 2 2 = none then some (2, 2)
      else none := by
  cases h11 : cellAt board 1 1 <;> cases h00 : cellAt board 0 0 <;>
    cases h02 : cellAt board 0 2 <;> cases h20 : cellAt board 2 0 <;>
    cases h22 : cellAt board 2 2 <;>
    simp [centreOrCorner, List.find?, h11, h00, h02, h20, h22]

theorem centreOrCorner_some {board : Board} {ij : Nat × Nat}
    (h : centreOrCorner board = some ij) :
    ij.1 < 3 ∧ ij.2 < 3 ∧ cellAt board ij.1 ij.2 = none := by
  rw [centreOrCorner_eq] at h
  repeat' split at h
  all_goals first
    | (cases h; exact ⟨by decide, by decide, by assumption⟩)
    | cases h

theorem findBestMove_ok {n : Nat} (hn : 0 < n) (s : State) (hsize : s.size = n)
    (hwf : WellFormed n s.board) (rnd : ℚ) (h0 : 0 ≤ rnd) (h1 : rnd < 1) :
    ∃ mv, findBestMove s rnd = some mv ∧ MoveOk n s.board mv := by
  by_cases hall : s.board.all (fun row => row.all (fun cell => cell == none)) = true
  · refine ⟨(some (n / 2), some (n / 2)), by simp [findBestMove, hall, hsize], ?_⟩
    have hhalf : n / 2 < n := Nat.div_lt_self hn (by decide)
    exact Or.inl ⟨_, _, rfl, hhalf, hhalf, (allEmpty_iff hwf).1 hall _ _ hhalf hhalf⟩
  · cases hwin : firstWinningCell s.size s.board s.player with
    | some ij =>
      obtain ⟨i, j⟩ := ij
      refine ⟨_, findBestMove_of_win s rnd hall hwin, Or.inl ⟨i, j, rfl, ?_⟩⟩
      rw [hsize] at hwin
      obtain ⟨hi, hj, hw, _⟩ := (firstWinningCell_eq_some_iff n s.board s.player i j).1 hwin
      exact ⟨hi, hj, hw.1⟩
    | none =>
      cases hblock : firstWinningCell s.size s.board s.opponent with
      | some ij =>
        obtain ⟨i, j⟩ := ij
        refine ⟨_, findBestMove_of_block s rnd hall hwin hblock, Or.inl ⟨i, j, rfl, ?_⟩⟩
        rw [hsize] at hblock
        obtain ⟨hi, hj, hw, _⟩ :=
          (firstWinningCell_eq_some_iff n s.board s.opponent i j).1 hblock
        exact ⟨hi, hj, hw.1⟩
      | none =>
        rw [findBestMove_of_neither s rnd hall hwin hblock]
        cases hcc : (if s.size = 3 then centreOrCorner s.board else none) with
        | some ij =>
          refine ⟨_, rfl, Or.inl ⟨ij.1, ij.2, rfl, ?_⟩⟩
          by_cases h3 : s.size = 3
          · rw [if_pos h3] at hcc
            have := centreOrCorner_some hcc
            rw [← hsize, h3]
            exact this
          · rw [if_neg h3] at hcc
            cases hcc
        | none =>
          rw [hsize]
          exact findRandomMove_ok n s.board rnd h0 h1

theorem chooseAiMove_ok {n : Nat} (hn : 0 < n) (s : State) (hsize : s.size = n)
    (hwf : WellFormed n s.board) (coin rnd : ℚ) (h0 : 0 ≤ rnd) (h1 : rnd < 1) :
    ∃ mv, chooseAiMove s coin rnd = some mv ∧ MoveOk n s.board mv := by
  have hrand : ∃ mv, findRandomMove s.size s.board rnd = some mv ∧ MoveOk n s.board mv := by
    rw [hsize]; exact findRandomMove_ok n s.board rnd h0 h1
  have hbest := findBestMove_ok hn s hsize hwf rnd h0 h1
  unfold chooseAiMove
  cases s.aiDifficulty with
  | easy => exact hrand
  | hard => exact hbest
  | medium =>
    by_cases hc : coin < 1 / 2
    · simp only [hc, if_true]; exact hrand
    · simp only [hc, if_false]; exact hbest

theorem playMoves_isXNext (s : State) (moves : List (Nat × Nat)) :
    (playMoves s moves).isXNext = if moves.length % 2 = 0 then s.isXNext else !s.isXNext := by
  induction moves generalizing s with
  | nil => simp [playMoves]
  | cons m ms ih =>
    have hstep : playMoves s (m :: ms) = playMoves (makeMove s m.1 m.2) ms := rfl
    rw [hstep, ih]
    have hflip : (makeMove s m.1 m.2).isXNext = !s.isXNext := rfl
    rw [hflip, List.length_cons]
    rcases Nat.mod_two_eq_zero_or_one ms.length with h | h
    · have h' : (ms.length + 1) % 2 = 1 := by omega
      simp [h, h']
    · have h' : (ms.length + 1) % 2 = 0 := by omega
      simp [h, h']

/-! ## The claims -/

/-- C1. For every size `n` in `[3,10]` and every board of side `n`: every line
of `lineCoords n` has `n` cells; `calculateWinner` returns `null` exactly when
no row, column or diagonal consists of `n` cells of one symbol; and it returns
`p` exactly when the first full line in the scan order (rows `0..n-1`, columns
`0..n-1`, main diagonal, anti-diagonal) is a line of `p`. -/
theorem calculateWinner_first_full_line (n : Nat) (hn : 3 ≤ n ∧ n ≤ 10) (board : Board)
    (hwf : WellFormed n board) :
    (∀ line ∈ lineCoords n, line.length = n) ∧
    (calculateWinner n board = none
      ↔ ∀ line ∈ lineCoords n, ∀ p, ¬ FilledBy board line p) ∧
    (∀ p, calculateWinner n board = some p
      ↔ ∃ pre line post, lineCoords n = pre ++ line :: post ∧ FilledBy board line p ∧
          ∀ l ∈ pre, ∀ q, ¬ FilledBy board l q) := by
  have hpos : 0 < n := by omega
  refine ⟨?_, calculateWinner_eq_none_iff hwf hpos, calculateWinner_eq_some_iff hwf hpos⟩
  intro line hl
  unfold lineCoords at hl
  simp only [List.mem_append, List.mem_map, List.mem_range, List.mem_cons, List.mem_singleton,
    List.not_mem_nil, or_false] at hl
  rcases hl with (⟨r, _, rfl⟩ | ⟨c, _, rfl⟩) | rfl | rfl <;> simp

/-- Witness of C1: a 3×3 board whose row 1 and column 2 are both full; the row,
scanned first, decides. -/
theorem calculateWinner_first_full_line_witness :
    (3 ≤ 3 ∧ 3 ≤ 10) ∧
    WellFormed 3 [[some Player.X, none, some Player.O],
                  [some Player.X, some Player.X, some Player.X],
                  [none, none, some Player.O]] ∧
    calculateWinner 3 [[some Player.X, none, some Player.O],
                  [some Player.X, some Player.X, some Player.X],
                  [none, none, some Player.O]] ≠ none :=
  ⟨by decide, by decide, fun hnone =>
    ((calculateWinner_first_full_line 3 (by decide) _ (by decide)).2.1.1 hnone)
      [(1, 0), (1, 1), (1, 2)] (by decide) Player.X (by decide)⟩

/-- C2. For every size `n` in `[3,10]`, every state whose board has side `n`
and no full line, every Empty cell `(row, col)` and every player `p` to move:
if the board that `makeMove` builds has a line consisting of `n` cells of `p`,
then `calculateWinner` of that board is `p` and `makeMove` sets `winner` to
`p`. -/
theorem makeMove_completing_line_wins (n : Nat) (hn : 3 ≤ n ∧ n ≤ 10) (s : State)
    (hsize : s.size = n) (hwf : WellFormed n s.board)
    (hprog : calculateWinner n s.board = none) (row col : Nat) (hrow : row < n) (hcol : col < n)
    (hempty : cellAt s.board row col = none) (p : Player) (hp : s.player = p)
    (hline : ∃ line ∈ lineCoords n, FilledBy (makeMove s row col).board line p) :
    calculateWinner n (makeMove s row col).board = some p ∧
    (makeMove s row col).winner = some p := by
  have hpos : 0 < n := by omega
  have hw : calculateWinner n (makeMove s row col).board = some p := by
    rw [makeMove_board, hp] at hline ⊢
    exact (calculateWinner_setCell_iff hwf hpos hprog hrow hcol p).2 hline
  refine ⟨hw, ?_⟩
  rw [makeMove_winner, hsize, hw]
  rfl

/-- Witness of C2: X completes the anti-diagonal of a 3×3 board. -/
theorem makeMove_completing_line_wins_witness :
    (makeMove { initialState with
        board := [[some Player.O, none, some Player.X],
                  [some Player.O, some Player.X, none],
                  [none, none, none]] } 2 0).winner = some Player.X :=
  (makeMove_completing_line_wins 3 (by decide)
    { initialState with
        board := [[some Player.O, none, some Player.X],
                  [some Player.O, some Player.X, none],
                  [none, none, none]] }
    rfl (by decide) (by decide) 2 0 (by decide) (by decide) (by decide) Player.X rfl
    ⟨[(0, 2), (1, 1), (2, 0)], by decide, by decide⟩).2

/-- C3. For every size `n` in `[3,10]` and every state whose board has side
`n` and no full line, with `winner` equal to `calculateWinner(board)`: if no
cell is Empty, the draw effect sets `isDraw` to true; if some cell is Empty,
the draw effect changes nothing. -/
theorem drawEffect_draw_iff_full (n : Nat) (hn : 3 ≤ n ∧ n ≤ 10) (s : State)
    (hsize : s.size = n) (hwf : WellFormed n s.board)
    (hprog : calculateWinner n s.board = none)
    (hwinner : s.winner = calculateWinner s.size s.board) :
    ((∀ i j, i < n → j < n → cellAt s.board i j ≠ none) →
      calculateWinner n s.board = none ∧ drawRule s.winner s.board = true ∧
      (drawEffect s).isDraw = true) ∧
    ((∃ i j, i < n ∧ j < n ∧ cellAt s.board i j = none) →
      drawRule s.winner s.board = false ∧ drawEffect s = s) := by
  have hw : s.winner = none := by rw [hwinner, hsize, hprog]
  constructor
  · intro hfull
    have hrule : drawRule s.winner s.board = true :=
      (drawRule_eq_true_iff hwf s.winner).2 ⟨hw, hfull⟩
    refine ⟨hprog, hrule, ?_⟩
    simp [drawEffect, hrule]
  · rintro ⟨i, j, hi, hj, hcell⟩
    have hrule : drawRule s.winner s.board = false := by
      cases hr : drawRule s.winner s.board with
      | false => rfl
      | true => exact absurd hcell (((drawRule_eq_true_iff hwf s.winner).1 hr).2 i j hi hj)
    refine ⟨hrule, ?_⟩
    simp [drawEffect, hrule]

/-- Witness of C3: a full 3×3 board without a full line is a draw. -/
theorem drawEffect_draw_iff_full_witness :
    (drawEffect { initialState with
        board := [[some Player.X, some Player.O, some Player.X],
                  [some Player.X, some Player.O, some Player.O],
                  [some Player.O, some Player.X, some Player.X]] }).isDraw = true :=
  ((drawEffect_draw_iff_full 3 (by decide)
    { initialState with
        board := [[some Player.X, some Player.O, some Player.X],
                  [some Player.X, some Player.O, some Player.O],
                  [some Player.O, some Player.X, some Player.X]] }
    rfl (by decide) (by decide) (by decide)).1
    (by intro i j hi hj; interval_cases i <;> interval_cases j <;> decide)).2.2

/-- C4. For every size `n` in `[3,10]`, every state whose board has side `n`
and no full line, with `p` to move: if some Empty cell, filled with `p`,
completes a line of `p`, then `findBestMove` returns the first such cell in
row-major order, whatever the opponent could do, and `makeMove` at that cell
sets `winner` to `p`. -/
theorem findBestMove_takes_first_win (n : Nat) (hn : 3 ≤ n ∧ n ≤ 10) (s : State)
    (hsize : s.size = n) (hwf : WellFormed n s.board)
    (hprog : calculateWinner n s.board = none) (rnd : ℚ)
    (hex : ∃ i j, i < n ∧ j < n ∧ CompletesLine n s.board s.player i j) :
    ∃ i j, findBestMove s rnd = some (some i, some j) ∧ i < n ∧ j < n ∧
      CompletesLine n s.board s.player i j ∧
      (∀ i' j', i' < n → j' < n → RowMajorBefore i' j' i j →
        ¬ CompletesLine n s.board s.player i' j') ∧
      (makeMove s i j).winner = some s.player := by
  obtain ⟨i, j, hf, hi, hj, hc, hfirst, hw⟩ :=
    firstWinningCell_first_completing hwf (by omega) hprog s.player hex
  refine ⟨i, j, ?_, hi, hj, hc, hfirst, ?_⟩
  · exact findBestMove_of_win s rnd (not_allEmpty_of_completesLine hwf (by omega) hex)
      (by rw [hsize]; exact hf)
  · rw [makeMove_winner, makeMove_board, hsize, hw]
    rfl

/-- Witness of C4, the scenario of the specification: on
`[[X,X,null],[O,O,null],[null,null,null]]` with O to move the result is
`(1,2)`, the win, not the block at `(0,2)`. -/
theorem findBestMove_takes_first_win_witness :
    ∃ i j, findBestMove { initialState with
        board := [[some Player.X, some Player.X, none],
                  [some Player.O, some Player.O, none],
                  [none, none, none]]
        isXNext := false } 0 = some (some i, some j) ∧ i = 1 ∧ j = 2 := by
  obtain ⟨i, j, hf, _, _, _, _, _⟩ := findBestMove_takes_first_win 3 (by decide)
    { initialState with
        board := [[some Player.X, some Player.X, none],
                  [some Player.O, some Player.O, none],
                  [none, none, none]]
        isXNext := false }
    rfl (by decide) (by decide) 0 ⟨1, 2, by decide, by decide, by decide⟩
  refine ⟨i, j, hf, ?_⟩
  have hval : findBestMove { initialState with
        board := [[some Player.X, some Player.X, none],
                  [some Player.O, some Player.O, none],
                  [none, none, none]]
        isXNext := false } 0 = some (some 1, some 2) := by decide
  rw [hval] at hf
  simp only [Option.some.injEq, Prod.mk.injEq] at hf
  omega

/-- C5. For every size `n` in `[3,10]`, every state whose board has side `n`
and no full line, with `p` to move and `q` the opponent: if no Empty cell,
filled with `p`, completes a line of `p`, and some Empty cell, filled with
`q`, completes a line of `q`, then `findBestMove` returns the first such cell
in row-major order. -/
theorem findBestMove_blocks_first_threat (n : Nat) (hn : 3 ≤ n ∧ n ≤ 10) (s : State)
    (hsize : s.size = n) (hwf : WellFormed n s.board)
    (hprog : calculateWinner n s.board = none) (rnd : ℚ)
    (hnowin : ∀ i j, i < n → j < n → ¬ CompletesLine n s.board s.player i j)
    (hex : ∃ i j, i < n ∧ j < n ∧ CompletesLine n s.board s.opponent i j) :
    ∃ i j, findBestMove s rnd = some (some i, some j) ∧ i < n ∧ j < n ∧
      CompletesLine n s.board s.opponent i j ∧
      (∀ i' j', i' < n → j' < n → RowMajorBefore i' j' i j →
        ¬ CompletesLine n s.board s.opponent i' j') := by
  have hpos : 0 < n := by omega
  obtain ⟨i, j, hf, hi, hj, hc, hfirst, _⟩ :=
    firstWinningCell_first_completing hwf hpos hprog s.opponent hex
  refine ⟨i, j, ?_, hi, hj, hc, hfirst⟩
  apply findBestMove_of_block s rnd (not_allEmpty_of_completesLine hwf (by omega) hex)
  · rw [hsize, firstWinningCell_eq_none_iff]
    intro i' j' hi' hj' hw
    exact hnowin i' j' hi' hj'
      ((immediateWin_iff_completesLine hwf hpos hprog hi' hj' s.player).1 hw)
  · rw [hsize]; exact hf

/-- Witness of C5: on `[[X,X,null],[null,O,null],[null,null,null]]` with O to
move the result is the block at `(0,2)`. -/
theorem findBestMove_blocks_first_threat_witness :
    ∃ i j, findBestMove { initialState with
        board := [[some Player.X, some Player.X, none],
                  [none, some Player.O, none],
                  [none, none, none]]
        isXNext := false } 0 = some (some i, some j) ∧ i = 0 ∧ j = 2 := by
  obtain ⟨i, j, hf, _, _, _, _⟩ := findBestMove_blocks_first_threat 3 (by decide)
    { initialState with
        board := [[some Player.X, some Player.X, none],
                  [none, some Player.O, none],
                  [none, none, none]]
        isXNext := false }
    rfl (by decide) (by decide) 0
    (by intro i j hi hj; interval_cases i <;> interval_cases j <;> decide)
    ⟨0, 2, by decide, by decide, by decide⟩
  refine ⟨i, j, hf, ?_⟩
  have hval : findBestMove { initialState with
        board := [[some Player.X, some Player.X, none],
                  [none, some Player.O, none],
                  [none, none, none]]
        isXNext := false } 0 = some (some 0, some 2) := by decide
  rw [hval] at hf
  simp only [Option.some.injEq, Prod.mk.injEq] at hf
  omega

/-- C6. For every state with a 3×3 board on which neither the mover nor the
opponent has an immediately winning Empty cell (a cell where writing the
symbol makes `calculateWinner` return it; on a board without a full line, a
cell that completes a line), `findBestMove` returns the centre `(1,1)` if it
is Empty, otherwise the first Empty corner in the order `(0,0)`, `(0,2)`,
`(2,0)`, `(2,2)`, and the result of `findRandomMove` only when the centre and
the four corners are occupied; that result is an Empty cell, or "no move" on
a board without an Empty cell. -/
theorem findBestMove_centre_then_corners (s : State) (hsize : s.size = 3)
    (hwf : WellFormed 3 s.board) (rnd : ℚ) (hrnd : 0 ≤ rnd ∧ rnd < 1)
    (hnowin : ∀ i j, i < 3 → j < 3 → ¬ ImmediateWin 3 s.board s.player i j)
    (hnoblock : ∀ i j, i < 3 → j < 3 → ¬ ImmediateWin 3 s.board s.opponent i j) :
    findBestMove s rnd =
      (if cellAt s.board 1 1 = none then some (some 1, some 1)
       else if cellAt s.board 0 0 = none then some (some 0, some 0)
       else if cellAt s.board 0 2 = none then some (some 0, some 2)
       else if cellAt s.board 2 0 = none then some (some 2, some 0)
       else if cellAt s.board 2 2 = none then some (some 2, some 2)
       else findRandomMove 3 s.board rnd) ∧
    ∃ mv, findRandomMove 3 s.board rnd = some mv ∧ MoveOk 3 s.board mv := by
  refine ⟨?_, findRandomMove_ok 3 s.board rnd hrnd.1 hrnd.2⟩
  by_cases hall : s.board.all (fun row => row.all (fun cell => cell == none)) = true
  · have hc : cellAt s.board 1 1 = none :=
      (allEmpty_iff hwf).1 hall 1 1 (by decide) (by decide)
    rw [if_pos hc]
    simp [findBestMove, hall, hsize]
  · have hwin : firstWinningCell s.size s.board s.player = none := by
      rw [hsize, firstWinningCell_eq_none_iff]; exact hnowin
    have hblock : firstWinningCell s.size s.board s.opponent = none := by
      rw [hsize, firstWinningCell_eq_none_iff]; exact hnoblock
    rw [findBestMove_of_neither s rnd hall hwin hblock, if_pos hsize, centreOrCorner_eq, hsize]
    by_cases h11 : cellAt s.board 1 1 = none <;> by_cases h00 : cellAt s.board 0 0 = none <;>
      by_cases h02 : cellAt s.board 0 2 = none <;> by_cases h20 : cellAt s.board 2 0 = none <;>
      by_cases h22 : cellAt s.board 2 2 = none <;>
      simp only [h11, h00, h02, h20, h22, if_true, if_false]

/-- Witness of C6, the two scenarios of the specification: the empty 3×3
board yields `(1,1)`, and `[[X,null,null],[null,O,null],[null,null,null]]`
with X to move yields `(0,2)`. -/
theorem findBestMove_centre_then_corners_witness :
    findBestMove initialState 0 = some (some 1, some 1) ∧
    findBestMove { initialState with
        board := [[some Player.X, none, none],
                  [none, some Player.O, none],
                  [none, none, none]] } 0 = some (some 0, some 2) :=
  ⟨(findBestMove_centre_then_corners initialState rfl (by decide) 0 (by norm_num)
      (by intro i j hi hj; interval_cases i <;> interval_cases j <;> decide)
      (by intro i j hi hj; interval_cases i <;> interval_cases j <;> decide)).1.trans rfl,
   (findBestMove_centre_then_corners
      { initialState with
        board := [[some Player.X, none, none],
                  [none, some Player.O, none],
                  [none, none, none]] } rfl (by decide) 0 (by norm_num)
      (by intro i j hi hj; interval_cases i <;> interval_cases j <;> decide)
      (by intro i j hi hj; interval_cases i <;> interval_cases j <;> decide)).1.trans rfl⟩

theorem makeMove_ne_self (s : State) (row col : Nat) : makeMove s row col ≠ s := by
  intro h
  have := congrArg State.isXNext h
  simp [makeMove] at this

/-- C7. For every state and every in-bounds cell `(row, col)`: if the game is
not replaying, the cell is Empty, there is no winner, the game is not a draw
and the controller of the player to move is human, `handleClick` is
`makeMove(row, col)`, which changes the state; in every other case
`handleClick` returns the state unchanged, in particular once there is a
winner or a draw. -/
theorem handleClick_applies_iff_legal (s : State) (row col : Nat)
    (hrow : row < s.board.length) (hcol : col < (s.board.getD row []).length) :
    ((s.isReplaying = false ∧ cellAt s.board row col = none ∧ s.winner = none ∧
        s.isDraw = false ∧ s.currentPlayer = Controller.human) →
      handleClick s row col = makeMove s row col ∧ handleClick s row col ≠ s) ∧
    (¬ (s.isReplaying = false ∧ cellAt s.board row col = none ∧ s.winner = none ∧
        s.isDraw = false ∧ s.currentPlayer = Controller.human) →
      handleClick s row col = s) ∧
    ((s.winner ≠ none ∨ s.isDraw = true) → handleClick s row col = s) := by
  have hlegal : (s.isReplaying = false ∧ cellAt s.board row col = none ∧ s.winner = none ∧
        s.isDraw = false ∧ s.currentPlayer = Controller.human) →
      handleClick s row col = makeMove s row col := by
    rintro ⟨h1, h2, h3, h4, h5⟩
    unfold State.currentPlayer at h5
    unfold handleClick
    cases hx : s.isXNext <;> simp_all
  have hillegal : ¬ (s.isReplaying = false ∧ cellAt s.board row col = none ∧ s.winner = none ∧
        s.isDraw = false ∧ s.currentPlayer = Controller.human) →
      handleClick s row col = s := by
    intro hnot
    unfold State.currentPlayer at hnot
    unfold handleClick
    cases hr : s.isReplaying <;> cases hc : cellAt s.board row col <;>
      cases hw : s.winner <;> cases hd : s.isDraw <;> cases hx : s.isXNext <;>
      cases hpx : s.playerX <;> cases hpo : s.playerO <;> simp_all
  refine ⟨fun h => ⟨hlegal h, ?_⟩, hillegal, ?_⟩
  · rw [hlegal h]; exact makeMove_ne_self s row col
  · intro h
    apply hillegal
    rintro ⟨_, _, h3, h4, _⟩
    rcases h with h | h
    · exact h h3
    · rw [h4] at h; cases h

/-- Witness of C7: a click on the centre of the empty board is applied; the
same click after a win is ignored. -/
theorem handleClick_applies_iff_legal_witness :
    (handleClick initialState 1 1).board
      = [[none, none, none], [none, some Player.X, none], [none, none, none]] ∧
    handleClick { initialState with winner := some Player.O } 1 1
      = { initialState with winner := some Player.O } :=
  ⟨(congrArg State.board
      ((handleClick_applies_iff_legal initialState 1 1 (by decide) (by decide)).1
        ⟨rfl, rfl, rfl, rfl, rfl⟩).1).trans (by decide),
   (handleClick_applies_iff_legal { initialState with winner := some Player.O } 1 1
      (by decide) (by decide)).2.2 (Or.inl (by decide))⟩

/-- C8. For every size `n` in `[3,10]`, every state whose board has side `n`
(whatever the difficulty and the mover) and every pair of random draws in
`[0,1)`: `makeAiMove` computes a move; when the board has an Empty cell the
move is an in-bounds Empty cell and `makeMove` is called on it; the move is
"no move" exactly when the board has no Empty cell, and then `makeMove` is
not called. -/
theorem chooseAiMove_empty_cell_or_no_move (n : Nat) (hn : 3 ≤ n ∧ n ≤ 10) (s : State)
    (hsize : s.size = n) (hwf : WellFormed n s.board) (coin rnd : ℚ)
    (hcoin : 0 ≤ coin ∧ coin < 1) (hrnd : 0 ≤ rnd ∧ rnd < 1) :
    ∃ mv, chooseAiMove s coin rnd = some mv ∧
      ((∃ i j, i < n ∧ j < n ∧ cellAt s.board i j = none) →
        ∃ i j, mv = (some i, some j) ∧ i < n ∧ j < n ∧ cellAt s.board i j = none ∧
          makeAiMove s coin rnd = some (makeMove s i j)) ∧
      (mv = (none, none) ↔ ∀ i j, i < n → j < n → cellAt s.board i j ≠ none) ∧
      (mv = (none, none) → makeAiMove s coin rnd = some s) := by
  obtain ⟨mv, hmv, hok⟩ := chooseAiMove_ok (by omega) s hsize hwf coin rnd hrnd.1 hrnd.2
  refine ⟨mv, hmv, ?_, ?_, ?_⟩
  · rintro ⟨i, j, hi, hj, hc⟩
    rcases hok with ⟨a, b, rfl, ha, hb, hab⟩ | ⟨_, hfull⟩
    · exact ⟨a, b, rfl, ha, hb, hab, by simp [makeAiMove, hmv]⟩
    · exact absurd hc (hfull i j hi hj)
  · constructor
    · intro hnone
      rcases hok with ⟨a, b, rfl, _, _, _⟩ | ⟨_, hfull⟩
      · simp at hnone
      · exact hfull
    · intro hfull
      rcases hok with ⟨a, b, rfl, ha, hb, hab⟩ | ⟨h, _⟩
      · exact absurd hab (hfull a b ha hb)
      · exact h
  · intro hnone
    simp [makeAiMove, hmv, hnone]

/-- Witness of C8: on a 3×3 board with the single Empty cell `(2,1)` the
medium AI, whatever it draws, moves there. -/
theorem chooseAiMove_empty_cell_or_no_move_witness :
    ∃ mv, chooseAiMove { initialState with
        board := [[some Player.X, some Player.O, some Player.X],
                  [some Player.X, some Player.O, some Player.O],
                  [some Player.O, none, some Player.X]] } (3 / 4) (1 / 4) = some mv ∧
      mv ≠ (none, none) := by
  obtain ⟨mv, hmv, _, hiff, _⟩ := chooseAiMove_empty_cell_or_no_move 3 (by decide)
    { initialState with
        board := [[some Player.X, some Player.O, some Player.X],
                  [some Player.X, some Player.O, some Player.O],
                  [some Player.O, none, some Player.X]] }
    rfl (by decide) (3 / 4) (1 / 4) (by norm_num) (by norm_num)
  refine ⟨mv, hmv, fun hnone => ?_⟩
  exact absurd rfl (hiff.1 hnone 2 1 (by decide) (by decide))

/-- C9. For every state whose board has side `n` and every in-bounds Empty
cell `(row, col)`, the board of `makeMove(row, col)` holds the mover's symbol
(X if `isXNext`, else O) at `(row, col)`, equals the prior board at every
other cell and has side `n`, and `isXNext` is flipped; so after any sequence
of `makeMove` calls from `resetGame` the next symbol written is X after an
even number of moves and O after an odd number.  (The new board is a new
value: the embedding, like `map` in the source, never updates in place.) -/
theorem makeMove_writes_mover_and_flips_turn (n : Nat) (s : State)
    (hwf : WellFormed n s.board) (row col : Nat) (hrow : row < n) (hcol : col < n)
    (hempty : cellAt s.board row col = none) :
    cellAt (makeMove s row col).board row col = some (if s.isXNext then Player.X else Player.O) ∧
    (∀ i j, ¬ (i = row ∧ j = col) →
      cellAt (makeMove s row col).board i j = cellAt s.board i j) ∧
    WellFormed n (makeMove s row col).board ∧
    (makeMove s row col).isXNext = (!s.isXNext) ∧
    (∀ moves : List (Nat × Nat),
      (playMoves (resetGame s) moves).player
        = if moves.length % 2 = 0 then Player.X else Player.O) := by
  refine ⟨?_, ?_, ?_, rfl, ?_⟩
  · rw [makeMove_board, cellAt_setCell hwf hrow hcol, if_pos ⟨rfl, rfl⟩]
    rfl
  · intro i j hij
    rw [makeMove_board, cellAt_setCell hwf hrow hcol, if_neg hij]
  · rw [makeMove_board]
    exact hwf.setCell row col _
  · intro moves
    unfold State.player
    rw [playMoves_isXNext]
    have hreset : (resetGame s).isXNext = true := rfl
    rw [hreset]
    by_cases h : moves.length % 2 = 0 <;> simp [h]

/-- Witness of C9: the first move on the empty 3×3 board writes X at the
chosen cell and hands the turn to O. -/
theorem makeMove_writes_mover_and_flips_turn_witness :
    cellAt (makeMove initialState 0 2).board 0 2 = some Player.X ∧
    (makeMove initialState 0 2).isXNext = false :=
  ⟨(makeMove_writes_mover_and_flips_turn 3 initialState (by decide) 0 2 (by decide)
      (by decide) (by decide)).1,
   (makeMove_writes_mover_and_flips_turn 3 initialState (by decide) 0 2 (by decide)
      (by decide) (by decide)).2.2.2.1⟩

/-- C10, as the code behaves: when `JSON.parse` returns a list, the import
does not look at its entries; whether or not they are well-formed snapshots,
it raises no alert, makes the list the HistoryLog, sets the replay index to 0
and resets the game (board of side `size` all Empty, X to move, no winner, no
draw), leaving every other state variable as it was.  When `JSON.parse`
throws, the import raises the alert and leaves the whole state, the
HistoryLog included, unchanged. -/
theorem handleFileUploadOnload_replaces_unless_parse_throws (s : State) (items : List Json)
    (message : String) :
    handleFileUploadOnload s (Except.ok (Json.arr items))
      = ({ size := s.size
           board := List.replicate s.size (List.replicate s.size none)
           isXNext := true
           winner := none
           isDraw := false
           history := Json.arr items
           isReplaying := s.isReplaying
           replayIndex := 0
           playerX := s.playerX
           playerO := s.playerO
           aiDifficulty := s.aiDifficulty }, none) ∧
    handleFileUploadOnload s (Except.error message)
      = (s, some ("ไม่สามารถโหลดไฟล์ได้: " ++ message)) :=
  ⟨rfl, rfl⟩

/-- C10 fails as stated: a blob that parses as JSON and holds one entry
without the `board` field is not a well-formed log, yet the import raises no
alert and replaces a well-formed existing log by it. -/
theorem handleFileUploadOnload_accepts_malformed :
    isHistoryLog (Json.arr [sampleSnapshot]) = true ∧
    isHistoryLog (Json.arr [snapshotWithoutBoard]) = false ∧
    (handleFileUploadOnload { initialState with history := Json.arr [sampleSnapshot] }
      (Except.ok (Json.arr [snapshotWithoutBoard]))).2 = none ∧
    (handleFileUploadOnload { initialState with history := Json.arr [sampleSnapshot] }
      (Except.ok (Json.arr [snapshotWithoutBoard]))).1.history
        = Json.arr [snapshotWithoutBoard] ∧
    (handleFileUploadOnload { initialState with history := Json.arr [sampleSnapshot] }
      (Except.ok (Json.arr [snapshotWithoutBoard]))).1.history
        ≠ Json.arr [sampleSnapshot] := by
  refine ⟨by decide, by decide, rfl, rfl, ?_⟩
  show Json.arr [snapshotWithoutBoard] ≠ Json.arr [sampleSnapshot]
  intro h
  have h1 := Json.arr.inj h
  have h2 := (List.cons.inj h1).1
  unfold snapshotWithoutBoard sampleSnapshot at h2
  have h3 := Json.obj.inj h2
  have h4 := congrArg List.length h3
  simp at h4


end XO
